import Mathlib

/-!
# SyncKit — verification of the core spec against the sources

A shallow embedding of the SyncKit repository's data model and operations:
the LWW register / vector-clock / document / delta core, the SDK document
wrapper (`sdk` `document.ts`, `synckit.ts`), the WebSocket server handlers
(`server/typescript/src/websocket/server.ts`) and the PostgreSQL vector-clock
merge (`server/typescript/src/storage/postgres.ts`).

The Rust/WASM core (`WasmDocument`, `WasmDelta`), the sync coordinator
(`src/sync/coordinator`), the connection class and the RBAC helpers are
declared or called by the TypeScript sources but their implementations are
not part of the source tree; definitions standing in for them are modelled
from the specification and are marked `Modelled from the spec:` in their
doc comments.

Values are modelled as the parsed JSON payloads the wrappers exchange,
with `Option String`: `none` is the JSON `null` / tombstone (the source
conflates the two), `some s` any other payload, opaque to the core.
-/

namespace SyncKit

/-- Association-list lookup on string keys (the embedding of JS object /
`Map` access). Returns the value at the first matching key. -/
def alookup {α : Type} : List (String × α) → String → Option α
  | [], _ => none
  | (k, v) :: t, q => if k = q then some v else alookup t q

/-- Association-list update: replace the first binding of the key in place,
or append a fresh binding (the embedding of JS object / `Map` assignment). -/
def aset {α : Type} : List (String × α) → String → α → List (String × α)
  | [], q, v => [(q, v)]
  | (k, w) :: t, q, v => if k = q then (q, v) :: t else (k, w) :: aset t q v

/-- Lookup with default 0, the vector-clock read (`unknown replicas read as 0`). -/
def alookupD (l : List (String × Nat)) (k : String) : Nat :=
  (alookup l k).getD 0

theorem alookup_aset_self {α : Type} (l : List (String × α)) (k : String) (v : α) :
    alookup (aset l k v) k = some v := by
  induction l with
  | nil => simp [alookup, aset]
  | cons h t ih =>
    obtain ⟨k', v'⟩ := h
    by_cases hk : k' = k
    · simp [alookup, aset, hk]
    · simp [alookup, aset, hk, ih]

theorem alookup_aset_other {α : Type} (l : List (String × α)) (k q : String) (v : α)
    (hne : k ≠ q) : alookup (aset l k v) q = alookup l q := by
  induction l with
  | nil => simp [alookup, aset, hne]
  | cons h t ih =>
    obtain ⟨k', v'⟩ := h
    by_cases hk : k' = k
    · simp [alookup, aset, hk, hne]
    · by_cases hq : k' = q
      · simp [alookup, aset, hk, hq, Ne.symm hne]
      · simp [alookup, aset, hk, hq, ih]

theorem alookup_eq_none_of_not_mem {α : Type} (l : List (String × α)) (k : String)
    (h : k ∉ l.map Prod.fst) : alookup l k = none := by
  induction l with
  | nil => rfl
  | cons hd t ih =>
    obtain ⟨k', v'⟩ := hd
    simp only [List.map_cons, List.mem_cons] at h
    push_neg at h
    simp [alookup, Ne.symm h.1, ih h.2]

/-- A Lamport stamp: logical clock paired with the writing replica
(`Stamp — the pair (clock: u64, replica: ReplicaId)`). -/
structure Stamp where
  clock : Nat
  replica : String
  deriving DecidableEq, Repr

/-- Lexicographic comparison of replica identifiers by code point
(the required total order over identifiers). -/
def charsLtb : List Char → List Char → Bool
  | _, [] => false
  | [], _ :: _ => true
  | a :: as, b :: bs =>
    if a.toNat < b.toNat then true
    else if b.toNat < a.toNat then false
    else charsLtb as bs

theorem charsLtb_irrefl : ∀ l : List Char, charsLtb l l = false
  | [] => rfl
  | a :: as => by simp [charsLtb, Nat.lt_irrefl, charsLtb_irrefl as]

theorem charsLtb_asymm : ∀ {a b : List Char},
    charsLtb a b = true → charsLtb b a = false := by
  intro a
  induction a with
  | nil =>
    intro b h
    cases b with
    | nil => exact absurd h (by simp [charsLtb])
    | cons y ys => simp [charsLtb]
  | cons x xs ih =>
    intro b h
    cases b with
    | nil => exact absurd h (by simp [charsLtb])
    | cons y ys =>
      unfold charsLtb at h ⊢
      by_cases h1 : x.toNat < y.toNat
      · simp [h1, Nat.lt_asymm h1]
      · by_cases h2 : y.toNat < x.toNat
        · rw [if_neg h1, if_pos h2] at h
          exact absurd h (by simp)
        · rw [if_neg h1, if_neg h2] at h
          simp [h1, h2, ih h]

theorem charsLtb_trans : ∀ {a b c : List Char},
    charsLtb a b = true → charsLtb b c = true → charsLtb a c = true := by
  intro a
  induction a with
  | nil =>
    intro b c h1 h2
    cases b with
    | nil => exact absurd h1 (by simp [charsLtb])
    | cons y ys =>
      cases c with
      | nil => exact absurd h2 (by simp [charsLtb])
      | cons z zs => simp [charsLtb]
  | cons x xs ih =>
    intro b c h1 h2
    cases b with
    | nil => exact absurd h1 (by simp [charsLtb])
    | cons y ys =>
      cases c with
      | nil => exact absurd h2 (by simp [charsLtb])
      | cons z zs =>
        unfold charsLtb at h1 h2 ⊢
        by_cases hxy : x.toNat < y.toNat
        · by_cases hyz : y.toNat < z.toNat
          · simp [Nat.lt_trans hxy hyz]
          · rw [if_neg hyz] at h2
            split at h2
            · exact absurd h2 (by simp)
            · next hzy =>
              have heq : y.toNat = z.toNat :=
                Nat.le_antisymm (Nat.le_of_not_lt hzy) (Nat.le_of_not_lt hyz)
              have hlt : x.toNat < z.toNat := heq ▸ hxy
              simp [hlt]
        · rw [if_neg hxy] at h1
          split at h1
          · exact absurd h1 (by simp)
          · next hyx =>
            have hxyeq : x.toNat = y.toNat :=
              Nat.le_antisymm (Nat.le_of_not_lt hyx) (Nat.le_of_not_lt hxy)
            by_cases hyz : y.toNat < z.toNat
            · have hlt : x.toNat < z.toNat := hxyeq ▸ hyz
              simp [hlt]
            · rw [if_neg hyz] at h2
              split at h2
              · exact absurd h2 (by simp)
              · next hzy =>
                have hyzeq : y.toNat = z.toNat :=
                  Nat.le_antisymm (Nat.le_of_not_lt hzy) (Nat.le_of_not_lt hyz)
                have hxz : ¬ x.toNat < z.toNat := by
                  rw [hxyeq, hyzeq]
                  exact Nat.lt_irrefl _
                have hzx : ¬ z.toNat < x.toNat := by
                  rw [hxyeq, hyzeq]
                  exact Nat.lt_irrefl _
                rw [if_neg hxz, if_neg hzx]
                exact ih h1 h2

theorem charsLtb_eq_of_not : ∀ {a b : List Char},
    charsLtb a b = false → charsLtb b a = false → a = b := by
  intro a
  induction a with
  | nil =>
    intro b h1 _
    cases b with
    | nil => rfl
    | cons y ys => exact absurd h1 (by simp [charsLtb])
  | cons x xs ih =>
    intro b h1 h2
    cases b with
    | nil => exact absurd h2 (by simp [charsLtb])
    | cons y ys =>
      unfold charsLtb at h1 h2
      by_cases hxy : x.toNat < y.toNat
      · rw [if_pos hxy] at h1
        exact absurd h1 (by simp)
      · by_cases hyx : y.toNat < x.toNat
        · rw [if_pos hyx] at h2
          exact absurd h2 (by simp)
        · rw [if_neg hxy, if_neg hyx] at h1
          rw [if_neg hyx, if_neg hxy] at h2
          have hhead : x = y :=
            Char.ext (UInt32.toNat.inj
              (Nat.le_antisymm (Nat.le_of_not_lt hyx) (Nat.le_of_not_lt hxy)))
          rw [hhead, ih h1 h2]

theorem string_ext (a b : String) (h : a.data = b.data) : a = b := by
  cases a
  cases b
  simp_all

/-- Total order on stamps: compare the clock first, then the replica
identifier lexicographically. -/
def Stamp.ltb (a b : Stamp) : Bool :=
  if a.clock < b.clock then true
  else if b.clock < a.clock then false
  else charsLtb a.replica.data b.replica.data

theorem Stamp.ltb_irrefl (a : Stamp) : Stamp.ltb a a = false := by
  simp [Stamp.ltb, charsLtb_irrefl]

theorem Stamp.ltb_asymm {a b : Stamp} (h : Stamp.ltb a b = true) :
    Stamp.ltb b a = false := by
  unfold Stamp.ltb at *
  split at h
  · next hlt =>
    simp [Nat.lt_asymm hlt, hlt]
  · next hnlt =>
    split at h
    · exact absurd h (by simp)
    · next hnlt2 =>
      rw [if_neg hnlt2, if_neg hnlt]
      exact charsLtb_asymm h

theorem Stamp.eq_of_not_ltb {a b : Stamp} (h1 : Stamp.ltb a b = false)
    (h2 : Stamp.ltb b a = false) : a = b := by
  unfold Stamp.ltb at h1 h2
  split at h1
  · exact absurd h1 (by simp)
  · next hnlt =>
    split at h1
    · next hlt =>
      rw [if_neg (Nat.lt_asymm hlt), if_pos hlt] at h2
      exact absurd h2 (by simp)
    · next hnlt2 =>
      rw [if_neg hnlt2, if_neg hnlt] at h2
      have hc : a.clock = b.clock :=
        Nat.le_antisymm (Nat.le_of_not_lt hnlt2) (Nat.le_of_not_lt hnlt)
      have hr : a.replica = b.replica :=
        string_ext _ _ (charsLtb_eq_of_not h1 h2)
      cases a
      cases b
      simp_all

/-- One LWW register: opaque value (`none` = tombstone), winning stamp,
and the replica that produced the write. -/
structure Register where
  value : Option String
  stamp : Stamp
  origin : String
  deriving DecidableEq, Repr

/-- One field change inside a delta (`Change = { path, value | tombstone,
stamp, origin }`). -/
structure Change where
  path : String
  value : Option String
  stamp : Stamp
  origin : String
  deriving DecidableEq, Repr

/-- The register a change writes when it wins. -/
def regOfChange (c : Change) : Register :=
  ⟨c.value, c.stamp, c.origin⟩

/-- The in-memory document of the core: identifier, field registers,
vector clock, and the replica identifier the core stamps its own
deletions with. -/
structure CoreDoc where
  docId : String
  replica : String
  fields : List (String × Register)
  vclock : List (String × Nat)
  deriving DecidableEq, Repr

/-- A document that may have been invalidated by an invariant violation
(`InvariantViolation … Fatal for the document; … refuse further mutation`). -/
inductive DocState where
  | ok (d : CoreDoc)
  | faulted
  deriving DecidableEq, Repr

/-- Vector-clock observe: raise the stamp's replica coordinate to at least
the stamp's clock (`observe(r, v) — set r's coordinate to max(current, v)`). -/
def observe (vc : List (String × Nat)) (s : Stamp) : List (String × Nat) :=
  aset vc s.replica (max (alookupD vc s.replica) s.clock)

/-- Modelled from the spec: one step of `apply(delta, doc)` in the Rust core
(not under src/ — only `wasm/synckit_core.d.ts` declares it): offer the change
to the register at its path under the LWW rule of §4.3 (adopt when absent,
overwrite when strictly newer, discard when strictly older, fault when the
stamps are equal and the values differ), then `observe` the change's stamp. -/
def applyChange : DocState → Change → DocState
  | .faulted, _ => .faulted
  | .ok d, c =>
    let vc := observe d.vclock c.stamp
    match alookup d.fields c.path with
    | none => .ok { d with fields := aset d.fields c.path (regOfChange c), vclock := vc }
    | some r =>
      if Stamp.ltb r.stamp c.stamp then
        .ok { d with fields := aset d.fields c.path (regOfChange c), vclock := vc }
      else if Stamp.ltb c.stamp r.stamp then
        .ok { d with vclock := vc }
      else if r.value = c.value then
        .ok { d with vclock := vc }
      else
        .faulted

/-- Modelled from the spec: `apply(delta, doc)` of the Rust core
(`WasmDelta.applyTo`, not under src/) — offer every change in order. -/
def applyDelta (s : DocState) (cs : List Change) : DocState :=
  cs.foldl applyChange s

/-- Field lookup through the fault layer: a faulted document exposes no
registers. -/
def fieldsOf : DocState → List (String × Register)
  | .ok d => d.fields
  | .faulted => []

/-- Vector-clock lookup through the fault layer. -/
def vclockOf : DocState → List (String × Nat)
  | .ok d => d.vclock
  | .faulted => []

/-- Modelled from the spec: `WasmDocument.setField(path, value_json, clock,
client_id)` of the Rust core (not under src/) — an LWW assignment of the
value at the stamp `(clock, client_id)` with origin `client_id`. -/
def setFieldS (s : DocState) (path : String) (v : Option String)
    (clock : Nat) (client : String) : DocState :=
  applyChange s ⟨path, v, ⟨clock, client⟩, client⟩

/-- The next stamp of the core document per §4.1: read the replica's own
coordinate from the local vector clock and increment by 1. -/
def nextStamp (d : CoreDoc) : Stamp :=
  ⟨alookupD d.vclock d.replica + 1, d.replica⟩

/-- Modelled from the spec: `WasmDocument.deleteField(path)` of the Rust
core (not under src/) — `delete(path)` is `set(path, ⊥)` with a tombstone
marker and the next stamp, following the same LWW rule; the register is not
removed. -/
def deleteFieldCore (d : CoreDoc) (path : String) : DocState :=
  applyChange (.ok d) ⟨path, none, nextStamp d, d.replica⟩

/-- `deleteField` lifted through the fault layer. -/
def deleteFieldS : DocState → String → DocState
  | .faulted, _ => .faulted
  | .ok d, path => deleteFieldCore d path

/-- A fresh core document (`new WasmDocument(id)`): empty fields, empty
clock. The model's replica identifier is the SDK client id that owns it. -/
def emptyCore (docId replica : String) : CoreDoc :=
  ⟨docId, replica, [], []⟩

/-- The value-visible state the core serializes (`WasmDocument.toJSON`,
parsed): every field path mapped to its payload, tombstones reading as the
JSON `null` (`none`). -/
def dataOfCore (d : CoreDoc) : List (String × Option String) :=
  d.fields.map (fun pr => (pr.1, pr.2.value))

/-- `toJSON` through the fault layer. -/
def dataOfState : DocState → List (String × Option String)
  | .ok d => dataOfCore d
  | .faulted => []

/-- The SDK document wrapper (`sdk/src/document.ts`, `SyncDocument`):
the WASM document (`none` before `init`), the shadow logical clock
(`private clock = 0n`) and the identifiers. The derived field `data` is
`dataOfState` of the core. -/
structure SyncDocument where
  docId : String
  clientId : String
  wasm : Option DocState
  clock : Nat
  deriving DecidableEq, Repr

/-- The wrapper's cached `data` (`updateLocalState`: parse of
`wasmDoc.toJSON()`; `{}` while uninitialized). -/
def SyncDocument.dataMap (d : SyncDocument) : List (String × Option String) :=
  match d.wasm with
  | none => []
  | some st => dataOfState st

/-- `SyncDocument.getField(field)`: `return this.data[field]` — an absent
key reads as `undefined` (`none`), with no error path. -/
def SyncDocument.getField (d : SyncDocument) (field : String) :
    Option (Option String) :=
  alookup d.dataMap field

/-- `SyncDocument.set(field, value)`: throw `DocumentError` when not
initialized; otherwise increment the shadow clock and write the field at
the stamp `(clock, clientId)`. -/
def SyncDocument.set (d : SyncDocument) (field : String) (v : Option String) :
    Except Unit SyncDocument :=
  match d.wasm with
  | none => .error ()
  | some st =>
    let clk := d.clock + 1
    .ok { d with clock := clk, wasm := some (setFieldS st field v clk d.clientId) }

/-- The loop body of `SyncDocument.update(updates)`: for each entry,
`this.clock++` then `setField(field, value, this.clock, this.clientId)`. -/
def updateLoop (client : String) :
    DocState × Nat → List (String × Option String) → DocState × Nat
  | acc, [] => acc
  | (st, clk), (f, v) :: rest =>
    updateLoop client (setFieldS st f v (clk + 1) client, clk + 1) rest

/-- `SyncDocument.update(updates)`: throw `DocumentError` when not
initialized; otherwise run the per-field loop. -/
def SyncDocument.update (d : SyncDocument)
    (updates : List (String × Option String)) : Except Unit SyncDocument :=
  match d.wasm with
  | none => .error ()
  | some st =>
    let res := updateLoop d.clientId (st, d.clock) updates
    .ok { d with wasm := some res.1, clock := res.2 }

/-- `SyncDocument.delete(field)`: throw `DocumentError` when not
initialized; otherwise `wasmDoc.deleteField(field)` — note the wrapper's
shadow clock is not touched. -/
def SyncDocument.delete (d : SyncDocument) (field : String) :
    Except Unit SyncDocument :=
  match d.wasm with
  | none => .error ()
  | some st => .ok { d with wasm := some (deleteFieldS st field) }

/-- The value `SyncDocument.persist()` writes to storage
(`StoredDocument`): the visible data map and the single version entry
`{ [this.clientId]: Number(this.clock) }`. The wall-clock `updatedAt` field
has no bearing on any claim and is omitted. -/
structure StoredDocument where
  id : String
  data : List (String × Option String)
  version : List (String × Nat)
  deriving DecidableEq, Repr

/-- `SyncDocument.persist()` (the stored value it produces). -/
def SyncDocument.persist (d : SyncDocument) : StoredDocument :=
  ⟨d.docId, d.dataMap, [(d.clientId, d.clock)]⟩

/-- `SyncDocument.loadFromStored(stored)`: replay every stored field with
`setField(field, value, stored.version[this.clientId] || 0, this.clientId)`,
then set the shadow clock to the maximum version entry. -/
def SyncDocument.loadFromStored (d : SyncDocument) (stored : StoredDocument) :
    SyncDocument :=
  match d.wasm with
  | none => d
  | some st =>
    let clk := alookupD stored.version d.clientId
    let st' := stored.data.foldl
      (fun acc fv => setFieldS acc fv.1 fv.2 clk d.clientId) st
    { d with wasm := some st',
             clock := (stored.version.map Prod.snd).foldr max 0 }

/-- `SyncDocument.init()` against a storage holding `stored` for the
document id: create the fresh WASM document, then load the stored form. -/
def initFromStored (docId clientId : String) (stored : StoredDocument) :
    SyncDocument :=
  SyncDocument.loadFromStored
    ⟨docId, clientId, some (.ok (emptyCore docId clientId)), 0⟩ stored

/-- The snapshot/load round trip of the persistence contract: persist a
document, then initialize a fresh document of the same id and client from
the stored form. -/
def roundTrip (d : SyncDocument) : SyncDocument :=
  initFromStored d.docId d.clientId d.persist

/-- The `SyncKit` SDK entry point (`sdk/src/synckit.ts`): the initialized
flag and the per-id document cache. Document instances are modelled by
numeric references so that object identity is expressible; `nextRef` is the
reference the next `new SyncDocument(...)` would produce. -/
structure SyncKitState where
  initialized : Bool
  clientId : String
  documents : List (String × Nat)
  nextRef : Nat
  deriving DecidableEq, Repr

/-- `SyncKit.document(id)`: throw when not initialized; return the cached
instance when present; otherwise create a new instance, cache it and return
it. -/
def SyncKitState.document (s : SyncKitState) (id : String) :
    Except Unit (Nat × SyncKitState) :=
  if s.initialized = false then .error ()
  else
    match alookup s.documents id with
    | some ref => .ok (ref, s)
    | none =>
      .ok (s.nextRef,
        { s with documents := aset s.documents id s.nextRef,
                 nextRef := s.nextRef + 1 })

/-- One `INSERT … ON CONFLICT … DO UPDATE SET clock_value =
GREATEST(vector_clocks.clock_value, $3)` upsert from
`PostgresAdapter.mergeVectorClock`: insert the row, or raise the existing
row to the maximum of old and new. -/
def upsertMax : List (String × Nat) → String → Nat → List (String × Nat)
  | [], client, v => [(client, v)]
  | (k, w) :: t, client, v =>
    if k = client then (k, max w v) :: t else (k, w) :: upsertMax t client v

/-- `PostgresAdapter.mergeVectorClock(documentId, clock)`: one GREATEST
upsert per entry of the incoming clock, over the stored per-replica rows of
the document. -/
def postgresMergeVectorClock (stored : List (String × Nat))
    (clock : List (String × Nat)) : List (String × Nat) :=
  clock.foldl (fun tbl kv => upsertMax tbl kv.1 kv.2) stored

/-- The RBAC token payload carried by an authenticated connection
(`createUserPermissions` shape used by the server tests). -/
structure TokenPayload where
  userId : String
  canRead : List String
  canWrite : List String
  isAdmin : Bool
  deriving DecidableEq, Repr

/-- Modelled from the spec: `canWriteDocument` of `src/auth/rbac.ts` (not
under src/ — only its tests and callers are): an admin may write anything,
otherwise the document id must be in the write list. -/
def canWriteDocument (t : TokenPayload) (docId : String) : Bool :=
  t.isAdmin || docId ∈ t.canWrite

/-- Modelled from the spec: `canReadDocument` of `src/auth/rbac.ts` (not
under src/): an admin may read anything, otherwise the document id must be
in the read list. -/
def canReadDocument (t : TokenPayload) (docId : String) : Bool :=
  t.isAdmin || docId ∈ t.canRead

/-- The per-connection states the server distinguishes
(`ConnectionState` of `websocket/connection.ts`, not under src/; modelled
from the spec's state machine: `Unauthenticated`, `Authenticated`,
`Closed`). -/
inductive ConnState where
  | unauthenticated
  | authenticated
  | closed
  deriving DecidableEq, Repr

/-- A WebSocket connection as the server handlers see it: identifier,
state, and the token payload set on successful authentication. -/
structure Connection where
  id : String
  state : ConnState
  tokenPayload : Option TokenPayload
  deriving DecidableEq, Repr

/-- Outbound messages the handlers emit, paired with their payloads
(`protocol.ts` message constructors as used by `websocket/server.ts`). -/
inductive OutMsg where
  | authSuccess (userId : String)
  | authError
  | errorMsg (reason : String)
  | syncResponse (documentId : String) (state : List (String × Option String))
      (deltas : List Change)
  | deltaEcho (documentId : String) (changes : List Change)
      (vclock : List (String × Nat))
  deriving DecidableEq, Repr

/-- The server-side state the handlers of `websocket/server.ts` read and
write: the connection registry, and the coordinator's subscriber sets,
per-document vector clocks and documents (`sync/coordinator.ts` is not
under src/; its state is modelled from the spec's C6 state:
`documents: Map<DocumentId, Document>`,
`subscribers: Map<DocumentId, Set<ConnectionId>>`, plus the per-document
vector clocks the server merges into). -/
structure ServerState where
  connections : List Connection
  subscribers : List (String × List String)
  vclocks : List (String × List (String × Nat))
  documents : List (String × CoreDoc)
  deriving DecidableEq, Repr

/-- Find a connection in the registry by id (`registry.get`). -/
def findConn (s : ServerState) (connId : String) : Option Connection :=
  s.connections.find? (fun c => c.id = connId)

/-- Modelled from the spec: `coordinator.getSubscribers(documentId)` —
the document's subscriber set, empty when absent. -/
def getSubscribers (s : ServerState) (docId : String) : List String :=
  (alookup s.subscribers docId).getD []

/-- Modelled from the spec: `coordinator.subscribe(documentId, connId)` —
add the connection to the document's subscriber set. -/
def coordSubscribe (s : ServerState) (docId connId : String) : ServerState :=
  let subs := getSubscribers s docId
  if connId ∈ subs then s
  else { s with subscribers := aset s.subscribers docId (subs ++ [connId]) }

/-- Modelled from the spec: `coordinator.mergeVectorClock(documentId,
vectorClock)` — take the per-replica maximum into the document's stored
vector clock (`vector_clock_merge must take the per-replica max`). It
touches no document fields. -/
def coordMergeVectorClock (s : ServerState) (docId : String)
    (vc : List (String × Nat)) : ServerState :=
  let cur := (alookup s.vclocks docId).getD []
  { s with vclocks := aset s.vclocks docId (postgresMergeVectorClock cur vc) }

/-- Modelled from the spec: `coordinator.getDocumentState(documentId)` —
the document's current value-visible state, empty when the document is
unknown. -/
def getDocumentState (s : ServerState) (docId : String) :
    List (String × Option String) :=
  match alookup s.documents docId with
  | some d => dataOfCore d
  | none => []

/-- The `DeltaMessage` fields `websocket/server.ts` reads: document id, the
sender's vector clock, and the delta's changes (carried but never
deserialized by `handleDelta`). -/
structure DeltaMessage where
  documentId : String
  vectorClock : List (String × Nat)
  changes : List Change
  deriving DecidableEq, Repr

/-- `broadcast(documentId, message, excludeConnectionId)`: send the message
to every subscriber of the document except the sender, skipping connections
that are missing from the registry or not authenticated. -/
def broadcast (s : ServerState) (docId : String) (msg : OutMsg)
    (excludeId : String) : List (String × OutMsg) :=
  (getSubscribers s docId).filterMap (fun connId =>
    if connId = excludeId then none
    else
      match findConn s connId with
      | some c => if c.state = ConnState.authenticated then some (connId, msg) else none
      | none => none)

/-- `handleDelta(connection, message)` of `websocket/server.ts`: reject
when the connection is not authenticated or lacks write permission;
otherwise merge the message's vector clock into the coordinator and
broadcast the delta to the document's other subscribers. The delta's
changes are never applied to the server's document and no snapshot is
persisted — the application step is absent from the handler. Returns the
new server state and the outbound messages (receiver id paired with the
message). -/
def handleDelta (s : ServerState) (connId : String) (m : DeltaMessage) :
    ServerState × List (String × OutMsg) :=
  match findConn s connId with
  | none => (s, [])
  | some conn =>
    match conn.tokenPayload with
    | none => (s, [(connId, OutMsg.errorMsg "Not authenticated")])
    | some payload =>
      if conn.state ≠ ConnState.authenticated then
        (s, [(connId, OutMsg.errorMsg "Not authenticated")])
      else if canWriteDocument payload m.documentId = false then
        (s, [(connId, OutMsg.errorMsg "Permission denied")])
      else
        let s' := coordMergeVectorClock s m.documentId m.vectorClock
        (s', broadcast s' m.documentId
          (OutMsg.deltaEcho m.documentId m.changes m.vectorClock) connId)

/-- The `SyncRequestMessage` fields `websocket/server.ts` reads: document
id and the optional client vector clock. -/
structure SyncRequestMessage where
  documentId : String
  vectorClock : Option (List (String × Nat))
  deriving DecidableEq, Repr

/-- `handleSyncRequest(connection, message)` of `websocket/server.ts`:
reject when unauthenticated or lacking read permission; otherwise
subscribe the connection, merge the client's vector clock when provided,
and answer with the document's full current state and an empty `deltas`
list — the response is not filtered by the client's known clock. -/
def handleSyncRequest (s : ServerState) (connId : String)
    (m : SyncRequestMessage) : ServerState × List (String × OutMsg) :=
  match findConn s connId with
  | none => (s, [])
  | some conn =>
    match conn.tokenPayload with
    | none => (s, [(connId, OutMsg.errorMsg "Not authenticated")])
    | some payload =>
      if conn.state ≠ ConnState.authenticated then
        (s, [(connId, OutMsg.errorMsg "Not authenticated")])
      else if canReadDocument payload m.documentId = false then
        (s, [(connId, OutMsg.errorMsg "Permission denied")])
      else
        let s1 := coordSubscribe s m.documentId connId
        let s2 := match m.vectorClock with
          | some vc => coordMergeVectorClock s1 m.documentId vc
          | none => s1
        let st := getDocumentState s2 m.documentId
        (s2, [(connId, OutMsg.syncResponse m.documentId st [])])

/-- The spec's catch-up rule, stated from its words for comparison with the
source handler (`snapshot_for(doc, known_clock)` / scenario S6): include
exactly the fields whose stamp's clock coordinate exceeds the known clock's
entry for the stamp's replica. -/
def specCatchUpFields (fields : List (String × Register))
    (known : List (String × Nat)) : List (String × Register) :=
  fields.filter (fun pr => alookupD known pr.2.stamp.replica < pr.2.stamp.clock)

/-- The `AuthMessage` fields `handleAuth` reads: the optional JWT and the
optional API key. -/
structure AuthMessage where
  token : Option String
  apiKey : Option String
  deriving DecidableEq, Repr

/-- `handleAuth(connection, message)` of `websocket/server.ts`, with JWT
verification abstracted as an oracle `env` (the cryptographic
`verifyToken` of `src/auth/jwt.ts` is treated as an opaque map from tokens
to decoded payloads):
with a token, a successful verification authenticates the connection and a
failed one sends `AUTH_ERROR` and closes it (close sets the state to
`Closed`); with an API key, a generic error is sent and the connection is
left as it was; with neither, the connection authenticates anonymously. -/
def handleAuth (env : String → Option TokenPayload) (c : Connection)
    (m : AuthMessage) : Connection × List OutMsg :=
  match m.token with
  | some tok =>
    match env tok with
    | some payload =>
      ({ c with state := ConnState.authenticated, tokenPayload := some payload },
       [OutMsg.authSuccess payload.userId])
    | none =>
      ({ c with state := ConnState.closed }, [OutMsg.authError])
  | none =>
    match m.apiKey with
    | some _ => (c, [OutMsg.errorMsg "API key authentication not yet implemented"])
    | none =>
      let payload : TokenPayload := ⟨"anonymous", [], [], false⟩
      ({ c with state := ConnState.authenticated, tokenPayload := some payload },
       [OutMsg.authSuccess "anonymous"])

/-- One delivered auth message in a connection's lifetime. Modelled from
the spec: `Closed` is terminal — a closed connection receives no further
events, so delivery is a no-op on it; otherwise the server runs
`handleAuth`. -/
def connStep (env : String → Option TokenPayload) (c : Connection)
    (m : AuthMessage) : Connection :=
  if c.state = ConnState.closed then c else (handleAuth env c m).1

/-- The core registers behind an initialized, unfaulted SDK document. -/
def SyncDocument.coreFields (d : SyncDocument) : List (String × Register) :=
  match d.wasm with
  | some (.ok c) => c.fields
  | _ => []

/-- The core vector clock behind an initialized, unfaulted SDK document. -/
def SyncDocument.coreVClock (d : SyncDocument) : List (String × Nat) :=
  match d.wasm with
  | some (.ok c) => c.vclock
  | _ => []

/-- Value-equality of document states: both faulted, or both healthy with
the same register at every path and the same clock coordinate at every
replica. -/
def DocState.equiv : DocState → DocState → Prop
  | .faulted, .faulted => True
  | .ok a, .ok b =>
    (∀ p, alookup a.fields p = alookup b.fields p) ∧
    (∀ rep, alookupD a.vclock rep = alookupD b.vclock rep)
  | _, _ => False

section Lemmas

theorem alookup_map {α β : Type} (f : α → β) (l : List (String × α)) (q : String) :
    alookup (l.map (fun pr => (pr.1, f pr.2))) q = (alookup l q).map f := by
  induction l with
  | nil => rfl
  | cons h t ih =>
    obtain ⟨k, v⟩ := h
    by_cases hk : k = q <;> simp [alookup, hk, ih]

theorem Stamp.ltb_trans {a b c : Stamp} (h1 : Stamp.ltb a b = true)
    (h2 : Stamp.ltb b c = true) : Stamp.ltb a c = true := by
  unfold Stamp.ltb at *
  by_cases hab : a.clock < b.clock
  · by_cases hbc : b.clock < c.clock
    · simp [Nat.lt_trans hab hbc]
    · rw [if_neg hbc] at h2
      split at h2
      · exact absurd h2 (by simp)
      · next hcb =>
        have heq : b.clock = c.clock :=
          Nat.le_antisymm (Nat.le_of_not_lt hcb) (Nat.le_of_not_lt hbc)
        have hlt : a.clock < c.clock := heq ▸ hab
        simp [hlt]
  · rw [if_neg hab] at h1
    split at h1
    · exact absurd h1 (by simp)
    · next hba =>
      have habeq : a.clock = b.clock :=
        Nat.le_antisymm (Nat.le_of_not_lt hba) (Nat.le_of_not_lt hab)
      by_cases hbc : b.clock < c.clock
      · have hlt : a.clock < c.clock := habeq ▸ hbc
        simp [hlt]
      · rw [if_neg hbc] at h2
        split at h2
        · exact absurd h2 (by simp)
        · next hcb =>
          have hbceq : b.clock = c.clock :=
            Nat.le_antisymm (Nat.le_of_not_lt hcb) (Nat.le_of_not_lt hbc)
          have hac : ¬ a.clock < c.clock := by
            rw [habeq, hbceq]
            exact Nat.lt_irrefl _
          have hca : ¬ c.clock < a.clock := by
            rw [habeq, hbceq]
            exact Nat.lt_irrefl _
          rw [if_neg hac, if_neg hca]
          exact charsLtb_trans h1 h2

theorem alookupD_observe_self (vc : List (String × Nat)) (s : Stamp) :
    alookupD (observe vc s) s.replica = max (alookupD vc s.replica) s.clock := by
  simp [observe, alookupD, alookup_aset_self]

theorem alookupD_observe_other (vc : List (String × Nat)) (s : Stamp)
    (rep : String) (hne : s.replica ≠ rep) :
    alookupD (observe vc s) rep = alookupD vc rep := by
  simp [observe, alookupD, alookup_aset_other _ _ _ _ hne]

theorem upsertMax_lookup_self (l : List (String × Nat)) (k : String) (v : Nat) :
    alookup (upsertMax l k v) k = some (max (alookupD l k) v) := by
  induction l with
  | nil => simp [upsertMax, alookup, alookupD]
  | cons h t ih =>
    obtain ⟨k', w⟩ := h
    by_cases hk : k' = k
    · simp [upsertMax, alookup, alookupD, hk]
    · simp [upsertMax, alookup, alookupD, hk, ih]

theorem upsertMax_lookup_other (l : List (String × Nat)) (k q : String) (v : Nat)
    (hne : k ≠ q) : alookup (upsertMax l k v) q = alookup l q := by
  induction l with
  | nil => simp [upsertMax, alookup, hne]
  | cons h t ih =>
    obtain ⟨k', w⟩ := h
    by_cases hk : k' = k
    · simp [upsertMax, alookup, hk, Ne.symm hne, hne]
    · by_cases hq : k' = q <;>
        simp [upsertMax, alookup, hk, hq, ih, Ne.symm hne]

end Lemmas

/-- C7 auxiliary: the merged table reads as the pointwise maximum. -/
theorem postgresMergeVectorClock_lookup (clock : List (String × Nat))
    (stored : List (String × Nat)) (hnd : (clock.map Prod.fst).Nodup)
    (rep : String) :
    alookupD (postgresMergeVectorClock stored clock) rep =
      max (alookupD stored rep) (alookupD clock rep) := by
  induction clock generalizing stored with
  | nil => simp [postgresMergeVectorClock, alookupD, alookup]
  | cons h t ih =>
    obtain ⟨k, v⟩ := h
    simp only [List.map_cons, List.nodup_cons] at hnd
    have step : postgresMergeVectorClock stored ((k, v) :: t) =
        postgresMergeVectorClock (upsertMax stored k v) t := rfl
    rw [step, ih _ hnd.2]
    by_cases hk : k = rep
    · subst hk
      have hnone : alookup t k = none :=
        alookup_eq_none_of_not_mem _ _ hnd.1
      simp [alookupD, upsertMax_lookup_self, alookup, hnone,
        Nat.max_assoc]
    · simp [alookupD, upsertMax_lookup_other _ _ _ _ hk, alookup, hk]

/-- C7: after `PostgresAdapter.mergeVectorClock`, every stored per-replica
coordinate equals the maximum of its previous value and the incoming value
for that replica (absent entries reading as 0), and no coordinate ever
decreases. -/
theorem mergeVectorClock_per_replica_max (stored clock : List (String × Nat))
    (hnd : (clock.map Prod.fst).Nodup) :
    (∀ rep, alookupD (postgresMergeVectorClock stored clock) rep =
      max (alookupD stored rep) (alookupD clock rep)) ∧
    (∀ rep, alookupD stored rep ≤
      alookupD (postgresMergeVectorClock stored clock) rep) := by
  refine ⟨fun rep => postgresMergeVectorClock_lookup clock stored hnd rep, ?_⟩
  intro rep
  rw [postgresMergeVectorClock_lookup clock stored hnd rep]
  exact Nat.le_max_left _ _

/-- C7 witness. -/
theorem mergeVectorClock_per_replica_max_witness :
    ((([("A", 3), ("B", 7)] : List (String × Nat)).map Prod.fst).Nodup) ∧
    (∀ rep, alookupD (postgresMergeVectorClock [("A", 5)] [("A", 3), ("B", 7)]) rep =
      max (alookupD [("A", 5)] rep) (alookupD [("A", 3), ("B", 7)] rep)) ∧
    (∀ rep, alookupD [("A", 5)] rep ≤
      alookupD (postgresMergeVectorClock [("A", 5)] [("A", 3), ("B", 7)]) rep) := by
  have hnd : (([("A", 3), ("B", 7)] : List (String × Nat)).map Prod.fst).Nodup := by
    decide
  have h := mergeVectorClock_per_replica_max [("A", 5)] [("A", 3), ("B", 7)] hnd
  exact ⟨hnd, h.1, h.2⟩

/-- C8: on an initialized document, `getField` at a path that was never set
(no register, hence no data entry) returns the absent value `none`
(`undefined`); `getField` is a total lookup with no error path. -/
theorem getField_unknown_path_absent (d : SyncDocument) (c : CoreDoc)
    (field : String) (hinit : d.wasm = some (.ok c))
    (hunset : field ∉ c.fields.map Prod.fst) :
    d.getField field = none := by
  have hkeys : (dataOfCore c).map Prod.fst = c.fields.map Prod.fst := by
    simp [dataOfCore, List.map_map, Function.comp]
  unfold SyncDocument.getField SyncDocument.dataMap
  rw [hinit]
  show alookup (dataOfCore c) field = none
  apply alookup_eq_none_of_not_mem
  rw [hkeys]
  exact hunset

/-- C8 witness. -/
theorem getField_unknown_path_absent_witness :
    (SyncDocument.mk "doc" "A"
      (some (.ok ⟨"doc", "A", [("title", ⟨some "x", ⟨1, "A"⟩, "A"⟩)], [("A", 1)]⟩))
      1).getField "missing" = none := by
  have h := getField_unknown_path_absent
    (SyncDocument.mk "doc" "A"
      (some (.ok ⟨"doc", "A", [("title", ⟨some "x", ⟨1, "A"⟩, "A"⟩)], [("A", 1)]⟩)) 1)
    ⟨"doc", "A", [("title", ⟨some "x", ⟨1, "A"⟩, "A"⟩)], [("A", 1)]⟩
    "missing" rfl (by decide)
  exact h

/-- C10: on an initialized `SyncKit`, `document(id)` returns a reference
and caches it, and an immediately repeated call returns the identical
cached reference without changing the state — the instance is created at
most once per id while cached. -/
theorem document_cached_identical (s : SyncKitState) (id : String)
    (hinit : s.initialized = true) :
    ∃ ref s', s.document id = .ok (ref, s') ∧ s'.document id = .ok (ref, s') := by
  cases hcase : alookup s.documents id with
  | some ref =>
    refine ⟨ref, s, ?_, ?_⟩ <;>
      simp [SyncKitState.document, hinit, hcase]
  | none =>
    refine ⟨s.nextRef,
      { s with documents := aset s.documents id s.nextRef,
               nextRef := s.nextRef + 1 }, ?_, ?_⟩
    · simp [SyncKitState.document, hinit, hcase]
    · simp [SyncKitState.document, hinit, alookup_aset_self]

/-- C10 witness. -/
theorem document_cached_identical_witness :
    ∃ ref s', (SyncKitState.mk true "A" [] 0).document "todo" = .ok (ref, s') ∧
      s'.document "todo" = .ok (ref, s') :=
  document_cached_identical ⟨true, "A", [], 0⟩ "todo" rfl

section ApplyChangeLemmas

theorem applyChange_ok_absent (d : CoreDoc) (c : Change)
    (h : alookup d.fields c.path = none) :
    applyChange (.ok d) c =
      .ok { d with fields := aset d.fields c.path (regOfChange c),
                   vclock := observe d.vclock c.stamp } := by
  simp [applyChange, h]

theorem applyChange_ok_newer (d : CoreDoc) (c : Change) (r : Register)
    (h : alookup d.fields c.path = some r)
    (hlt : Stamp.ltb r.stamp c.stamp = true) :
    applyChange (.ok d) c =
      .ok { d with fields := aset d.fields c.path (regOfChange c),
                   vclock := observe d.vclock c.stamp } := by
  simp [applyChange, h, hlt]

theorem Stamp.ltb_of_clock_lt {a b : Stamp} (h : a.clock < b.clock) :
    Stamp.ltb a b = true := by
  simp [Stamp.ltb, h]

end ApplyChangeLemmas

/-- C6 auxiliary: running the update loop from a healthy core whose
registers at the updated paths are stamped at or below the starting clock
advances the clock by one per field and lands the i-th field's register at
the stamp `(clk + i + 1, client)`. -/
theorem updateLoop_spec (client : String) (us : List (String × Option String)) :
    ∀ (c : CoreDoc) (clk : Nat),
      (us.map Prod.fst).Nodup →
      (∀ f v r, (f, v) ∈ us → alookup c.fields f = some r → r.stamp.clock ≤ clk) →
      ∃ c', updateLoop client (.ok c, clk) us = (.ok c', clk + us.length) ∧
        (∀ p, p ∉ us.map Prod.fst → alookup c'.fields p = alookup c.fields p) ∧
        (∀ i (hi : i < us.length),
          alookup c'.fields (us.get ⟨i, hi⟩).1 =
            some ⟨(us.get ⟨i, hi⟩).2, ⟨clk + i + 1, client⟩, client⟩) := by
  induction us with
  | nil =>
    intro c clk _ _
    exact ⟨c, by simp [updateLoop], fun p _ => rfl, fun i hi => absurd hi (by simp)⟩
  | cons fv us' ih =>
    intro c clk hnd hbound
    obtain ⟨f, v⟩ := fv
    simp only [List.map_cons, List.nodup_cons] at hnd
    have hstep : updateLoop client (.ok c, clk) ((f, v) :: us') =
        updateLoop client (setFieldS (.ok c) f v (clk + 1) client, clk + 1) us' := rfl
    set c1 : CoreDoc :=
      { c with fields := aset c.fields f ⟨v, ⟨clk + 1, client⟩, client⟩,
               vclock := observe c.vclock ⟨clk + 1, client⟩ } with hc1
    have hset : setFieldS (.ok c) f v (clk + 1) client = .ok c1 := by
      unfold setFieldS
      cases hl : alookup c.fields f with
      | none => exact applyChange_ok_absent c _ hl
      | some r =>
        have hle : r.stamp.clock ≤ clk :=
          hbound f v r (List.mem_cons_self _ _) hl
        exact applyChange_ok_newer c _ r hl
          (Stamp.ltb_of_clock_lt (Nat.lt_succ_of_le hle))
    have hbound1 : ∀ f' v' r', (f', v') ∈ us' →
        alookup c1.fields f' = some r' → r'.stamp.clock ≤ clk + 1 := by
      intro f' v' r' hmem hl
      have hfne : f ≠ f' := by
        intro hcontra
        exact hnd.1 (hcontra ▸ List.mem_map_of_mem Prod.fst hmem)
      rw [hc1] at hl
      simp only at hl
      rw [alookup_aset_other _ _ _ _ hfne] at hl
      exact Nat.le_succ_of_le (hbound f' v' r' (List.mem_cons_of_mem _ hmem) hl)
    obtain ⟨c'', hloop, huntouched, hidx⟩ := ih c1 (clk + 1) hnd.2 hbound1
    refine ⟨c'', ?_, ?_, ?_⟩
    · rw [hstep, hset, hloop]
      congr 1
      simp only [List.length_cons]
      omega
    · intro p hp
      simp only [List.map_cons, List.mem_cons] at hp
      push_neg at hp
      rw [huntouched p hp.2, hc1]
      simp only
      exact alookup_aset_other _ _ _ _ (Ne.symm hp.1)
    · intro i hi
      cases i with
      | zero =>
        have h1 : alookup c''.fields f = alookup c1.fields f := huntouched f hnd.1
        show alookup c''.fields f = some ⟨v, ⟨clk + 0 + 1, client⟩, client⟩
        rw [h1, hc1]
        simp only
        rw [alookup_aset_self]
      | succ j =>
        have hj : j < us'.length := by simpa using hi
        have hstamp := hidx j hj
        have harith : clk + 1 + j + 1 = clk + (j + 1) + 1 := by omega
        rw [harith] at hstamp
        exact hstamp

/-- C6: on an initialized document, `update(updates)` with distinct field
names advances the logical clock once per field — the final clock is the
starting clock plus the field count — and the i-th field's register
carries the stamp `(clock + i + 1, clientId)`, so the stamps issued within
one call are pairwise distinct and strictly increasing. The hypothesis that
existing registers at the updated paths are stamped at or below the
starting clock makes every per-field write win its LWW comparison. -/
theorem update_ticks_clock_per_field (d : SyncDocument) (c : CoreDoc)
    (us : List (String × Option String))
    (hinit : d.wasm = some (.ok c))
    (hnd : (us.map Prod.fst).Nodup)
    (hbound : ∀ f v r, (f, v) ∈ us → alookup c.fields f = some r →
      r.stamp.clock ≤ d.clock) :
    ∃ c', d.update us =
        .ok { d with wasm := some (.ok c'), clock := d.clock + us.length } ∧
      (∀ i (hi : i < us.length),
        alookup c'.fields (us.get ⟨i, hi⟩).1 =
          some ⟨(us.get ⟨i, hi⟩).2, ⟨d.clock + i + 1, d.clientId⟩, d.clientId⟩) ∧
      (∀ i j, i < us.length → j < us.length → i < j →
        Stamp.ltb ⟨d.clock + i + 1, d.clientId⟩
          ⟨d.clock + j + 1, d.clientId⟩ = true) := by
  obtain ⟨c', hloop, _, hidx⟩ := updateLoop_spec d.clientId us c d.clock hnd hbound
  refine ⟨c', ?_, hidx, ?_⟩
  · unfold SyncDocument.update
    rw [hinit]
    simp only [hloop]
  · intro i j _ _ hij
    exact Stamp.ltb_of_clock_lt
      (by show d.clock + i + 1 < d.clock + j + 1; omega)

/-- C6 witness. -/
theorem update_ticks_clock_per_field_witness :
    ∃ c', (SyncDocument.mk "doc" "A" (some (.ok (emptyCore "doc" "A"))) 0).update
        [("a", some "1"), ("b", some "2")] =
        .ok { SyncDocument.mk "doc" "A" (some (.ok (emptyCore "doc" "A"))) 0 with
              wasm := some (.ok c'), clock := 0 + 2 } ∧
      (∀ i (hi : i < ([("a", some "1"), ("b", some "2")] :
          List (String × Option String)).length),
        alookup c'.fields (([("a", some "1"), ("b", some "2")] :
            List (String × Option String)).get ⟨i, hi⟩).1 =
          some ⟨(([("a", some "1"), ("b", some "2")] :
            List (String × Option String)).get ⟨i, hi⟩).2, ⟨0 + i + 1, "A"⟩, "A"⟩) ∧
      (∀ i j, i < 2 → j < 2 → i < j →
        Stamp.ltb ⟨0 + i + 1, "A"⟩ ⟨0 + j + 1, "A"⟩ = true) :=
  update_ticks_clock_per_field
    (SyncDocument.mk "doc" "A" (some (.ok (emptyCore "doc" "A"))) 0)
    (emptyCore "doc" "A") [("a", some "1"), ("b", some "2")] rfl (by decide)
    (fun f v r _ h => absurd h (by simp [emptyCore, alookup]))

/-- C5: on an initialized document whose register at the path (if any) is
older than the document's next stamp, `delete(path)` behaves as
`set(path, ⊥)`: the register at the path remains present, holds the
tombstone value, and carries the fresh next stamp (the replica's own
coordinate incremented by one); a later write with a higher stamp
overwrites the deletion. -/
theorem delete_is_tombstone_set (d : SyncDocument) (c : CoreDoc) (p : String)
    (hinit : d.wasm = some (.ok c))
    (hlow : ∀ r, alookup c.fields p = some r →
      Stamp.ltb r.stamp (nextStamp c) = true) :
    ∃ c', d.delete p = .ok { d with wasm := some (.ok c') } ∧
      alookup c'.fields p = some ⟨none, nextStamp c, c.replica⟩ ∧
      ∀ v (s' : Stamp) (o : String), Stamp.ltb (nextStamp c) s' = true →
        ∃ c'', applyChange (.ok c') ⟨p, some v, s', o⟩ = .ok c'' ∧
          alookup c''.fields p = some ⟨some v, s', o⟩ := by
  set ch : Change := ⟨p, none, nextStamp c, c.replica⟩ with hch
  set c' : CoreDoc :=
    { c with fields := aset c.fields p (regOfChange ch),
             vclock := observe c.vclock ch.stamp } with hc'
  have hdel : deleteFieldCore c p = .ok c' := by
    unfold deleteFieldCore
    cases hl : alookup c.fields p with
    | none => exact applyChange_ok_absent c ch hl
    | some r => exact applyChange_ok_newer c ch r hl (hlow r hl)
  refine ⟨c', ?_, ?_, ?_⟩
  · unfold SyncDocument.delete
    rw [hinit]
    simp only [deleteFieldS, hdel]
  · rw [hc']
    simp only
    rw [alookup_aset_self]
    rfl
  · intro v s' o hlt
    have hlook : alookup c'.fields p = some (regOfChange ch) := by
      rw [hc']
      simp only
      exact alookup_aset_self _ _ _
    refine ⟨{ c' with
        fields := aset c'.fields p (regOfChange ⟨p, some v, s', o⟩),
        vclock := observe c'.vclock s' }, ?_, ?_⟩
    · exact applyChange_ok_newer c' ⟨p, some v, s', o⟩ (regOfChange ch) hlook hlt
    · simp only
      rw [alookup_aset_self]
      rfl

/-- C5 witness. -/
theorem delete_is_tombstone_set_witness :
    ∃ c', (SyncDocument.mk "doc" "A"
        (some (.ok ⟨"doc", "A", [("due", ⟨some "x", ⟨1, "A"⟩, "A"⟩)], [("A", 1)]⟩))
        1).delete "due" =
      .ok { SyncDocument.mk "doc" "A"
        (some (.ok ⟨"doc", "A", [("due", ⟨some "x", ⟨1, "A"⟩, "A"⟩)], [("A", 1)]⟩))
        1 with wasm := some (.ok c') } ∧
      alookup c'.fields "due" =
        some ⟨none, nextStamp ⟨"doc", "A", [("due", ⟨some "x", ⟨1, "A"⟩, "A"⟩)], [("A", 1)]⟩, "A"⟩ ∧
      ∀ v (s' : Stamp) (o : String),
        Stamp.ltb (nextStamp ⟨"doc", "A", [("due", ⟨some "x", ⟨1, "A"⟩, "A"⟩)], [("A", 1)]⟩) s' = true →
        ∃ c'', applyChange (.ok c') ⟨"due", some v, s', o⟩ = .ok c'' ∧
          alookup c''.fields "due" = some ⟨some v, s', o⟩ :=
  delete_is_tombstone_set
    (SyncDocument.mk "doc" "A"
      (some (.ok ⟨"doc", "A", [("due", ⟨some "x", ⟨1, "A"⟩, "A"⟩)], [("A", 1)]⟩)) 1)
    ⟨"doc", "A", [("due", ⟨some "x", ⟨1, "A"⟩, "A"⟩)], [("A", 1)]⟩ "due" rfl
    (fun r h => by
      have hr : (⟨some "x", ⟨1, "A"⟩, "A"⟩ : Register) = r := by
        simpa [alookup] using h
      rw [← hr]
      decide)

/-- A token-verification oracle with a single valid token, for concrete
evaluation of `handleAuth`. -/
def envOneToken : String → Option TokenPayload :=
  fun tok => if tok = "valid" then some ⟨"u1", ["d"], ["d"], false⟩ else none

/-- A fresh, unauthenticated connection. -/
def connFresh : Connection := ⟨"c1", ConnState.unauthenticated, none⟩

/-- An auth message attempting API-key authentication. -/
def apiKeyMsg : AuthMessage := ⟨none, some "key-123"⟩

/-- An auth message with the valid token. -/
def validTokenMsg : AuthMessage := ⟨some "valid", none⟩

/-- C9 counterexample: an API-key authentication attempt fails (the server
answers with an error and the connection is not authenticated), yet the
connection is not transitioned to `Closed` — it stays `Unauthenticated` —
and it subsequently reaches the `Authenticated` state by presenting a valid
token. -/
theorem auth_failure_not_always_closed :
    (handleAuth envOneToken connFresh apiKeyMsg).2 =
      [OutMsg.errorMsg "API key authentication not yet implemented"] ∧
    (handleAuth envOneToken connFresh apiKeyMsg).1.state =
      ConnState.unauthenticated ∧
    (connStep envOneToken (connStep envOneToken connFresh apiKeyMsg)
      validTokenMsg).state = ConnState.authenticated := by
  decide

theorem foldl_connStep_closed (env : String → Option TokenPayload)
    (evs : List AuthMessage) :
    ∀ c : Connection, c.state = ConnState.closed →
      (evs.foldl (connStep env) c).state = ConnState.closed := by
  induction evs with
  | nil => intro c h; exact h
  | cons m t ih =>
    intro c h
    have hstep : connStep env c m = c := by simp [connStep, h]
    simp only [List.foldl_cons, hstep]
    exact ih c h

/-- C9 (amended): for every connection whose token-based authentication
attempt fails (the token does not verify), the server sends the
authentication error and transitions the connection to `Closed`, and the
connection is never subsequently `Authenticated`: after any further
sequence of delivered auth messages it is still `Closed`. -/
theorem auth_token_failure_closes (env : String → Option TokenPayload)
    (c : Connection) (m : AuthMessage) (tok : String)
    (htok : m.token = some tok) (hfail : env tok = none)
    (evs : List AuthMessage) :
    (handleAuth env c m).2 = [OutMsg.authError] ∧
    (handleAuth env c m).1.state = ConnState.closed ∧
    (evs.foldl (connStep env) (handleAuth env c m).1).state =
      ConnState.closed := by
  have hres : handleAuth env c m =
      ({ c with state := ConnState.closed }, [OutMsg.authError]) := by
    unfold handleAuth
    rw [htok]
    simp [hfail]
  rw [hres]
  exact ⟨rfl, rfl, foldl_connStep_closed env evs _ rfl⟩

/-- C9 witness. -/
theorem auth_token_failure_closes_witness :
    (handleAuth envOneToken connFresh ⟨some "bad", none⟩).2 = [OutMsg.authError] ∧
    (handleAuth envOneToken connFresh ⟨some "bad", none⟩).1.state =
      ConnState.closed ∧
    (([validTokenMsg].foldl (connStep envOneToken)
      (handleAuth envOneToken connFresh ⟨some "bad", none⟩).1)).state =
      ConnState.closed :=
  auth_token_failure_closes envOneToken connFresh ⟨some "bad", none⟩ "bad"
    rfl (by decide) [validTokenMsg]

/-- A token payload with read and write permission on document `d`. -/
def payloadRW : TokenPayload := ⟨"u1", ["d"], ["d"], false⟩

/-- The sending connection, authenticated with write permission. -/
def connSender : Connection := ⟨"c1", ConnState.authenticated, some payloadRW⟩

/-- Another authenticated subscriber of the document. -/
def connOther : Connection := ⟨"c2", ConnState.authenticated, some payloadRW⟩

/-- The server's copy of document `d`, currently empty. -/
def docEmptyD : CoreDoc := ⟨"d", "server", [], []⟩

/-- A server state with both connections subscribed to `d`. -/
def serverTwoSubs : ServerState :=
  ⟨[connSender, connOther], [("d", ["c1", "c2"])], [], [("d", docEmptyD)]⟩

/-- A delta message from the client carrying one field change. -/
def deltaMsgOne : DeltaMessage :=
  ⟨"d", [("A", 1)], [⟨"title", some "x", ⟨1, "A"⟩, "A"⟩]⟩

/-- C1: evaluation of `handleDelta` at an authenticated connection with
write permission sending a delta with one change: the server's copy of the
document is left unchanged — the delta's change is never applied — and the
handler performs no snapshot persistence (its entire effect is the merged
vector clock and the outbound messages), while the delta is broadcast to
the other subscriber and not echoed to the sender. The claim's
apply-and-persist steps are absent from the handler. -/
theorem handleDelta_no_apply_no_persist :
    (handleDelta serverTwoSubs "c1" deltaMsgOne).1.documents =
      serverTwoSubs.documents ∧
    alookup (handleDelta serverTwoSubs "c1" deltaMsgOne).1.documents "d" =
      some docEmptyD ∧
    deltaMsgOne.changes ≠ [] ∧
    (handleDelta serverTwoSubs "c1" deltaMsgOne).2 =
      [("c2", OutMsg.deltaEcho "d" deltaMsgOne.changes deltaMsgOne.vectorClock)] := by
  decide

/-- The server's copy of document `d` holding one field stamped `(1, A)`. -/
def docSyncedD : CoreDoc :=
  ⟨"d", "server", [("title", ⟨some "x", ⟨1, "A"⟩, "A"⟩)], [("A", 1)]⟩

/-- A server state holding that document, with the reader connected. -/
def serverSynced : ServerState := ⟨[connSender], [], [], [("d", docSyncedD)]⟩

/-- A sync request whose known clock already covers stamp `(1, A)`. -/
def syncReqKnown : SyncRequestMessage := ⟨"d", some [("A", 3)]⟩

/-- C2: evaluation of `handleSyncRequest` for a reconnecting client whose
known vector clock `{A: 3}` already covers every stamp in the document: the
spec's catch-up rule selects no fields, yet the server's response transmits
the full document state (the `title` field stamped `(1, A)`) with an empty
`deltas` list — the response is not filtered by the known clock. -/
theorem handleSyncRequest_sends_full_state :
    specCatchUpFields docSyncedD.fields [("A", 3)] = [] ∧
    (handleSyncRequest serverSynced "c1" syncReqKnown).2 =
      [("c1", OutMsg.syncResponse "d" [("title", some "x")] [])] := by
  decide

/-- An SDK document holding a field written by remote replica `B` at stamp
`(5, B)`, with `B`'s vector-clock entry observed. -/
def docRemoteStamped : SyncDocument :=
  ⟨"doc", "A",
   some (.ok ⟨"doc", "A", [("title", ⟨some "x", ⟨5, "B"⟩, "B"⟩)], [("B", 5)]⟩),
   0⟩

/-- C3 counterexample: the persist/load round trip is not lossless. A field
written by replica `B` at stamp `(5, B)` comes back stamped `(0, A)` with
origin `A`, and `B`'s vector-clock entry is dropped (it reads 0 after the
round trip against 5 before). -/
theorem persist_load_not_lossless :
    alookup (roundTrip docRemoteStamped).coreFields "title" =
      some ⟨some "x", ⟨0, "A"⟩, "A"⟩ ∧
    alookup docRemoteStamped.coreFields "title" =
      some ⟨some "x", ⟨5, "B"⟩, "B"⟩ ∧
    alookupD (roundTrip docRemoteStamped).coreVClock "B" = 0 ∧
    alookupD docRemoteStamped.coreVClock "B" = 5 := by
  decide

/-- C3 auxiliary: replaying distinct stored fields onto a core that has
none of them adopts each at the replay stamp, leaving every other register
untouched. -/
theorem loadFold_spec (client : String) (clk : Nat)
    (l : List (String × Option String)) :
    ∀ c0 : CoreDoc,
      (l.map Prod.fst).Nodup →
      (∀ q, q ∈ l.map Prod.fst → alookup c0.fields q = none) →
      ∃ c', l.foldl (fun acc fv => setFieldS acc fv.1 fv.2 clk client)
          (.ok c0) = .ok c' ∧
        ∀ p, alookup c'.fields p =
          match alookup l p with
          | some v => some ⟨v, ⟨clk, client⟩, client⟩
          | none => alookup c0.fields p := by
  induction l with
  | nil =>
    intro c0 _ _
    exact ⟨c0, rfl, fun p => by simp [alookup]⟩
  | cons fv t ih =>
    intro c0 hnd hfresh
    obtain ⟨f, v⟩ := fv
    simp only [List.map_cons, List.nodup_cons] at hnd
    have hfr : alookup c0.fields f = none := hfresh f (by simp)
    have hstep : setFieldS (.ok c0) f v clk client = .ok
        { c0 with fields := aset c0.fields f ⟨v, ⟨clk, client⟩, client⟩,
                  vclock := observe c0.vclock ⟨clk, client⟩ } :=
      applyChange_ok_absent c0 _ hfr
    have hfresh1 : ∀ q, q ∈ t.map Prod.fst →
        alookup (aset c0.fields f (⟨v, ⟨clk, client⟩, client⟩ : Register)) q =
          none := by
      intro q hq
      have hne : f ≠ q := fun hcontra => hnd.1 (hcontra ▸ hq)
      rw [alookup_aset_other _ _ _ _ hne]
      exact hfresh q (List.mem_cons_of_mem _ hq)
    obtain ⟨c', hfold, hform⟩ := ih
      { c0 with fields := aset c0.fields f ⟨v, ⟨clk, client⟩, client⟩,
                vclock := observe c0.vclock ⟨clk, client⟩ } hnd.2 hfresh1
    refine ⟨c', ?_, ?_⟩
    · simpa [List.foldl_cons, hstep] using hfold
    · intro p
      by_cases hp : f = p
      · subst hp
        have htnone : alookup t f = none :=
          alookup_eq_none_of_not_mem _ _ hnd.1
        rw [hform f, htnone]
        simp [alookup, alookup_aset_self]
      · rw [hform p]
        simp only [alookup, if_neg hp]
        cases alookup t p with
        | some v' => rfl
        | none =>
          simp only
          exact alookup_aset_other _ _ _ _ hp

/-- C3 (amended): the persist/load round trip reproduces the value-visible
field map — every field path maps to the same payload before and after —
and the wrapper's local clock, while (per the counterexample) stamps,
origins and other replicas' vector-clock entries are not preserved. The
field paths of the source document are distinct, as they come from a JSON
object. -/
theorem roundTrip_preserves_visible_data (d : SyncDocument) (c : CoreDoc)
    (hinit : d.wasm = some (.ok c))
    (hnd : (c.fields.map Prod.fst).Nodup) :
    (∀ p, alookup (roundTrip d).dataMap p = alookup d.dataMap p) ∧
    (roundTrip d).clock = d.clock := by
  have hdata : d.dataMap = dataOfCore c := by
    unfold SyncDocument.dataMap
    rw [hinit]
    rfl
  have hkeys : (dataOfCore c).map Prod.fst = c.fields.map Prod.fst := by
    simp [dataOfCore, List.map_map, Function.comp]
  obtain ⟨c', hfold, hform⟩ := loadFold_spec d.clientId d.clock (dataOfCore c)
    (emptyCore d.docId d.clientId) (by rw [hkeys]; exact hnd)
    (fun q _ => rfl)
  have hpersist : d.persist = ⟨d.docId, dataOfCore c, [(d.clientId, d.clock)]⟩ := by
    unfold SyncDocument.persist
    rw [hdata]
  have hrt : roundTrip d =
      { docId := d.docId, clientId := d.clientId, wasm := some (.ok c'),
        clock := d.clock } := by
    unfold roundTrip
    rw [hpersist]
    unfold initFromStored SyncDocument.loadFromStored
    simp [alookupD, alookup, hfold]
  rw [hrt]
  refine ⟨?_, rfl⟩
  intro p
  have hvis : ∀ (cd : CoreDoc) (q : String),
      alookup (dataOfCore cd) q = (alookup cd.fields q).map Register.value :=
    fun cd q => alookup_map Register.value cd.fields q
  show alookup (dataOfCore c') p = alookup d.dataMap p
  rw [hvis c' p, hform p, hdata]
  cases hcase : alookup (dataOfCore c) p with
  | some v => simp
  | none => simp [emptyCore, alookup]

/-- C3 witness (for the amended claim). -/
theorem roundTrip_preserves_visible_data_witness :
    (∀ p, alookup (roundTrip docRemoteStamped).dataMap p =
      alookup docRemoteStamped.dataMap p) ∧
    (roundTrip docRemoteStamped).clock = docRemoteStamped.clock :=
  roundTrip_preserves_visible_data docRemoteStamped
    ⟨"doc", "A", [("title", ⟨some "x", ⟨5, "B"⟩, "B"⟩)], [("B", 5)]⟩
    rfl (by decide)

/-- The register left at a path after one LWW offer: adopt on an empty
cell, otherwise keep the stamp-maximal of the current register and the
change (ties keep the current register). -/
def combine (z : Option Register) (c : Change) : Option Register :=
  match z with
  | none => some (regOfChange c)
  | some r => if Stamp.ltb r.stamp c.stamp then some (regOfChange c) else some r

theorem Stamp.ltb_trichotomy (a b : Stamp) :
    Stamp.ltb a b = true ∨ a = b ∨ Stamp.ltb b a = true := by
  cases hab : Stamp.ltb a b with
  | true => exact Or.inl rfl
  | false =>
    cases hba : Stamp.ltb b a with
    | true => exact Or.inr (Or.inr rfl)
    | false => exact Or.inr (Or.inl (Stamp.eq_of_not_ltb hab hba))

theorem applyChange_ok_older (d : CoreDoc) (c : Change) (r : Register)
    (hl : alookup d.fields c.path = some r)
    (hlt : Stamp.ltb r.stamp c.stamp = false)
    (hlt2 : Stamp.ltb c.stamp r.stamp = true) :
    applyChange (.ok d) c = .ok { d with vclock := observe d.vclock c.stamp } := by
  simp [applyChange, hl, hlt, hlt2]

theorem applyChange_ok_equal (d : CoreDoc) (c : Change) (r : Register)
    (hl : alookup d.fields c.path = some r)
    (hlt : Stamp.ltb r.stamp c.stamp = false)
    (hlt2 : Stamp.ltb c.stamp r.stamp = false)
    (hv : r.value = c.value) :
    applyChange (.ok d) c = .ok { d with vclock := observe d.vclock c.stamp } := by
  simp [applyChange, hl, hlt, hlt2, hv]

/-- C4 auxiliary: one LWW offer to a document whose register at the
change's path does not clash with it (equal stamps imply the change's
register) succeeds and rewrites that path by `combine`, observing the
change's stamp. -/
theorem applyChange_ok_char (d : CoreDoc) (c : Change)
    (hd : ∀ r, alookup d.fields c.path = some r → r.stamp = c.stamp →
      r = regOfChange c) :
    ∃ d1, applyChange (.ok d) c = .ok d1 ∧
      (∀ p, alookup d1.fields p =
        if c.path = p then combine (alookup d.fields p) c
        else alookup d.fields p) ∧
      d1.vclock = observe d.vclock c.stamp := by
  cases hl : alookup d.fields c.path with
  | none =>
    refine ⟨_, applyChange_ok_absent d c hl, ?_, rfl⟩
    intro p
    by_cases hp : c.path = p
    · subst hp
      simp only [if_pos rfl]
      rw [alookup_aset_self, hl]
      rfl
    · simp only [if_neg hp]
      exact alookup_aset_other _ _ _ _ hp
  | some r =>
    cases hlt : Stamp.ltb r.stamp c.stamp with
    | true =>
      refine ⟨_, applyChange_ok_newer d c r hl hlt, ?_, rfl⟩
      intro p
      by_cases hp : c.path = p
      · subst hp
        simp only [if_pos rfl]
        rw [alookup_aset_self, hl]
        simp [combine, hlt]
      · simp only [if_neg hp]
        exact alookup_aset_other _ _ _ _ hp
    | false =>
      cases hlt2 : Stamp.ltb c.stamp r.stamp with
      | true =>
        refine ⟨_, applyChange_ok_older d c r hl hlt hlt2, ?_, rfl⟩
        intro p
        by_cases hp : c.path = p
        · subst hp
          simp only [if_pos rfl]
          rw [hl]
          simp [combine, hlt]
        · simp only [if_neg hp]
      | false =>
        have hstamp : r.stamp = c.stamp := Stamp.eq_of_not_ltb hlt hlt2
        have hv : r.value = c.value :=
          congrArg Register.value (hd r hl hstamp)
        refine ⟨_, applyChange_ok_equal d c r hl hlt hlt2 hv, ?_, rfl⟩
        intro p
        by_cases hp : c.path = p
        · subst hp
          simp only [if_pos rfl]
          rw [hl]
          simp [combine, hlt]
        · simp only [if_neg hp]

/-- C4 auxiliary: applying a stamp-consistent delta to a healthy document
never faults, rewrites every path by folding `combine` over the changes at
that path, and raises every vector-clock coordinate to the maximum
incoming clock of that replica. -/
theorem applyDelta_ok_char (cs : List Change) :
    ∀ d : CoreDoc,
      (∀ c ∈ cs, ∀ c' ∈ cs, c.path = c'.path → c.stamp = c'.stamp →
        regOfChange c = regOfChange c') →
      (∀ c ∈ cs, ∀ r, alookup d.fields c.path = some r → r.stamp = c.stamp →
        r = regOfChange c) →
      ∃ e, applyDelta (.ok d) cs = .ok e ∧
        (∀ p, alookup e.fields p =
          (cs.filter (fun c => c.path = p)).foldl combine
            (alookup d.fields p)) ∧
        (∀ rep, alookupD e.vclock rep =
          cs.foldl (fun acc c =>
            if c.stamp.replica = rep then max acc c.stamp.clock else acc)
            (alookupD d.vclock rep)) := by
  induction cs with
  | nil =>
    intro d _ _
    exact ⟨d, rfl, fun p => rfl, fun rep => rfl⟩
  | cons c rest ih =>
    intro d hpair hreg
    obtain ⟨d1, hstep, hfields, hvc⟩ := applyChange_ok_char d c
      (fun r hr hs => hreg c (List.mem_cons_self _ _) r hr hs)
    have hpair' : ∀ a ∈ rest, ∀ b ∈ rest, a.path = b.path → a.stamp = b.stamp →
        regOfChange a = regOfChange b :=
      fun a ha b hb => hpair a (List.mem_cons_of_mem _ ha) b
        (List.mem_cons_of_mem _ hb)
    have hreg' : ∀ c' ∈ rest, ∀ r1, alookup d1.fields c'.path = some r1 →
        r1.stamp = c'.stamp → r1 = regOfChange c' := by
      intro c' hc' r1 hr1 hs1
      rw [hfields c'.path] at hr1
      by_cases hp : c.path = c'.path
      · rw [if_pos hp] at hr1
        cases hlk : alookup d.fields c'.path with
        | none =>
          rw [hlk] at hr1
          have hr1' : regOfChange c = r1 := by
            simpa [combine] using hr1
          have hs : c.stamp = c'.stamp := by
            rw [← hs1, ← hr1']
            rfl
          rw [← hr1']
          exact hpair c (List.mem_cons_self _ _) c'
            (List.mem_cons_of_mem _ hc') hp hs
        | some r0 =>
          rw [hlk] at hr1
          by_cases hlt : Stamp.ltb r0.stamp c.stamp = true
          · have hr1' : regOfChange c = r1 := by
              simpa [combine, hlt] using hr1
            have hs : c.stamp = c'.stamp := by
              rw [← hs1, ← hr1']
              rfl
            rw [← hr1']
            exact hpair c (List.mem_cons_self _ _) c'
              (List.mem_cons_of_mem _ hc') hp hs
          · have hr1' : r0 = r1 := by
              simpa [combine, hlt] using hr1
            rw [← hr1'] at hs1 ⊢
            exact hreg c' (List.mem_cons_of_mem _ hc') r0 hlk hs1
      · rw [if_neg hp] at hr1
        exact hreg c' (List.mem_cons_of_mem _ hc') r1 hr1 hs1
    obtain ⟨e, hrest, hfe, hve⟩ := ih d1 hpair' hreg'
    refine ⟨e, ?_, ?_, ?_⟩
    · show List.foldl applyChange (.ok d) (c :: rest) = .ok e
      rw [List.foldl_cons, hstep]
      exact hrest
    · intro p
      rw [hfe p]
      by_cases hp : c.path = p
      · have hfil : (c :: rest).filter (fun c' => decide (c'.path = p)) =
            c :: rest.filter (fun c' => decide (c'.path = p)) := by
          simp [List.filter_cons, hp]
        rw [hfil, List.foldl_cons, hfields p, if_pos hp]
      · have hfil : (c :: rest).filter (fun c' => decide (c'.path = p)) =
            rest.filter (fun c' => decide (c'.path = p)) := by
          simp [List.filter_cons, hp]
        rw [hfil, hfields p, if_neg hp]
    · intro rep
      rw [hve rep, List.foldl_cons]
      congr 1
      rw [hvc]
      by_cases hrep : c.stamp.replica = rep
      · rw [if_pos hrep, ← hrep, alookupD_observe_self]
      · rw [if_neg hrep, alookupD_observe_other _ _ _ hrep]

/-- C4 auxiliary: two changes that agree whenever their stamps are equal
may be offered in either order. -/
theorem combine_comm {x y : Change}
    (hagree : x.stamp = y.stamp → regOfChange x = regOfChange y) :
    ∀ z, combine (combine z x) y = combine (combine z y) x := by
  have hnone : combine (some (regOfChange x)) y =
      combine (some (regOfChange y)) x := by
    show (if Stamp.ltb x.stamp y.stamp then some (regOfChange y)
        else some (regOfChange x)) =
      (if Stamp.ltb y.stamp x.stamp then some (regOfChange x)
        else some (regOfChange y))
    rcases Stamp.ltb_trichotomy x.stamp y.stamp with hxy | hxy | hxy
    · rw [if_pos hxy, if_neg (by simp [Stamp.ltb_asymm hxy])]
    · rw [hagree hxy, hxy]
    · rw [if_pos hxy, if_neg (by simp [Stamp.ltb_asymm hxy])]
  intro z
  cases z with
  | none => exact hnone
  | some r =>
    cases hrx : Stamp.ltb r.stamp x.stamp with
    | true =>
      cases hry : Stamp.ltb r.stamp y.stamp with
      | true =>
        have e1 : combine (some r) x = some (regOfChange x) := by
          simp [combine, hrx]
        have e2 : combine (some r) y = some (regOfChange y) := by
          simp [combine, hry]
        rw [e1, e2]
        exact hnone
      | false =>
        have hxyf : Stamp.ltb x.stamp y.stamp = false := by
          rcases Stamp.ltb_trichotomy y.stamp r.stamp with hyr | hyr | hyr
          · exact Stamp.ltb_asymm (Stamp.ltb_trans hyr hrx)
          · rw [← hyr] at hrx
            exact Stamp.ltb_asymm hrx
          · rw [hyr] at hry
            exact absurd hry (by simp)
        have e1 : combine (some r) x = some (regOfChange x) := by
          simp [combine, hrx]
        have e2 : combine (some r) y = some r := by
          simp [combine, hry]
        rw [e1, e2, e1]
        simp [combine, regOfChange, hxyf]
    | false =>
      cases hry : Stamp.ltb r.stamp y.stamp with
      | true =>
        have hyxf : Stamp.ltb y.stamp x.stamp = false := by
          rcases Stamp.ltb_trichotomy x.stamp r.stamp with hxr | hxr | hxr
          · exact Stamp.ltb_asymm (Stamp.ltb_trans hxr hry)
          · rw [← hxr] at hry
            exact Stamp.ltb_asymm hry
          · rw [hxr] at hrx
            exact absurd hrx (by simp)
        have e1 : combine (some r) x = some r := by
          simp [combine, hrx]
        have e2 : combine (some r) y = some (regOfChange y) := by
          simp [combine, hry]
        rw [e1, e2]
        simp [combine, regOfChange, hyxf]
      | false =>
        have e1 : combine (some r) x = some r := by
          simp [combine, hrx]
        have e2 : combine (some r) y = some r := by
          simp [combine, hry]
        rw [e1, e2, e1]

/-- C4 (amended): delta application commutes for stamp-consistent inputs —
whenever two changes of the deltas at the same path, or a change and an
existing register at its path, carry equal stamps they carry the same
value and origin (as is guaranteed when stamps are unique per write).
Applying Δ₁ then Δ₂ is then value-equal to applying Δ₂ then Δ₁: neither
order faults, every path holds the same register, and every vector-clock
coordinate agrees. -/
theorem apply_delta_commutes (d : CoreDoc) (Δ1 Δ2 : List Change)
    (hpair : ∀ c ∈ Δ1 ++ Δ2, ∀ c' ∈ Δ1 ++ Δ2, c.path = c'.path →
      c.stamp = c'.stamp → regOfChange c = regOfChange c')
    (hreg : ∀ c ∈ Δ1 ++ Δ2, ∀ r, alookup d.fields c.path = some r →
      r.stamp = c.stamp → r = regOfChange c) :
    DocState.equiv (applyDelta (applyDelta (.ok d) Δ1) Δ2)
      (applyDelta (applyDelta (.ok d) Δ2) Δ1) := by
  have happ1 : applyDelta (applyDelta (.ok d) Δ1) Δ2 =
      applyDelta (.ok d) (Δ1 ++ Δ2) := by
    unfold applyDelta
    rw [List.foldl_append]
  have happ2 : applyDelta (applyDelta (.ok d) Δ2) Δ1 =
      applyDelta (.ok d) (Δ2 ++ Δ1) := by
    unfold applyDelta
    rw [List.foldl_append]
  have hmem : ∀ a : Change, a ∈ Δ2 ++ Δ1 → a ∈ Δ1 ++ Δ2 := by
    intro a ha
    rw [List.mem_append] at ha ⊢
    exact ha.symm
  obtain ⟨e1, h1, hf1, hv1⟩ := applyDelta_ok_char (Δ1 ++ Δ2) d hpair hreg
  obtain ⟨e2, h2, hf2, hv2⟩ := applyDelta_ok_char (Δ2 ++ Δ1) d
    (fun c hc c' hc' => hpair c (hmem c hc) c' (hmem c' hc'))
    (fun c hc => hreg c (hmem c hc))
  rw [happ1, happ2, h1, h2]
  show (∀ p, alookup e1.fields p = alookup e2.fields p) ∧
    (∀ rep, alookupD e1.vclock rep = alookupD e2.vclock rep)
  constructor
  · intro p
    rw [hf1 p, hf2 p]
    have hperm : List.Perm
        ((Δ1 ++ Δ2).filter (fun c => decide (c.path = p)))
        ((Δ2 ++ Δ1).filter (fun c => decide (c.path = p))) := by
      rw [List.filter_append, List.filter_append]
      exact List.perm_append_comm
    refine hperm.foldl_eq' ?_ _
    intro x hx y hy z
    rw [List.mem_filter] at hx hy
    have hxp : x.path = p := of_decide_eq_true hx.2
    have hyp : y.path = p := of_decide_eq_true hy.2
    exact combine_comm
      (fun hs => hpair x hx.1 y hy.1 (hxp.trans hyp.symm) hs) z
  · intro rep
    rw [hv1 rep, hv2 rep]
    refine (@List.perm_append_comm _ Δ1 Δ2).foldl_eq' ?_ _
    intro x _ y _ z
    by_cases hx1 : x.stamp.replica = rep <;>
      by_cases hy1 : y.stamp.replica = rep <;>
      simp [hx1, hy1, Max.right_comm]

/-- C4 witness (for the amended claim). -/
theorem apply_delta_commutes_witness :
    DocState.equiv
      (applyDelta (applyDelta (.ok docEmptyD)
        [⟨"p", some "a", ⟨1, "A"⟩, "A"⟩]) [⟨"q", some "b", ⟨1, "B"⟩, "B"⟩])
      (applyDelta (applyDelta (.ok docEmptyD)
        [⟨"q", some "b", ⟨1, "B"⟩, "B"⟩]) [⟨"p", some "a", ⟨1, "A"⟩, "A"⟩]) :=
  apply_delta_commutes docEmptyD
    [⟨"p", some "a", ⟨1, "A"⟩, "A"⟩] [⟨"q", some "b", ⟨1, "B"⟩, "B"⟩]
    (by
      intro c hc c' hc'
      simp only [List.cons_append, List.nil_append, List.mem_cons,
        List.not_mem_nil, or_false] at hc hc'
      rcases hc with h | h <;> rcases hc' with h' | h' <;>
        subst h <;> subst h' <;> decide)
    (by
      intro c _ r hr
      exact absurd hr (by simp [docEmptyD, alookup]))

/-- The first delta of the C4 counterexample: one write at stamp `(1, A)`. -/
def deltaA : List Change := [⟨"p", some "a", ⟨1, "A"⟩, "A"⟩]

/-- The second delta of the C4 counterexample: a conflicting write at the
same stamp `(1, A)` followed by a newer write at `(2, A)`. -/
def deltaB : List Change :=
  [⟨"p", some "b", ⟨1, "A"⟩, "A"⟩, ⟨"p", some "c", ⟨2, "A"⟩, "A"⟩]

/-- C4 counterexample: for arbitrary deltas, application does not commute.
With two deltas carrying different values at the equal stamp `(1, A)`,
applying Δ₁ then Δ₂ faults on the equal-stamp conflict, while applying
Δ₂ then Δ₁ succeeds (the conflicting change arrives after a newer write
masks it) — the two orders are not value-equal. -/
theorem apply_delta_not_always_commutes :
    applyDelta (applyDelta (.ok docEmptyD) deltaA) deltaB = .faulted ∧
    applyDelta (applyDelta (.ok docEmptyD) deltaB) deltaA =
      .ok ⟨"d", "server", [("p", ⟨some "c", ⟨2, "A"⟩, "A"⟩)], [("A", 2)]⟩ ∧
    ¬ DocState.equiv (applyDelta (applyDelta (.ok docEmptyD) deltaA) deltaB)
        (applyDelta (applyDelta (.ok docEmptyD) deltaB) deltaA) := by
  refine ⟨by decide, by decide, ?_⟩
  intro h
  rw [show applyDelta (applyDelta (.ok docEmptyD) deltaA) deltaB = .faulted
        from by decide,
      show applyDelta (applyDelta (.ok docEmptyD) deltaB) deltaA =
        .ok ⟨"d", "server", [("p", ⟨some "c", ⟨2, "A"⟩, "A"⟩)], [("A", 2)]⟩
        from by decide] at h
  exact h

end SyncKit
